import Mathlib

/-!
Verification development for the regexp2 repository: a shallow embedding of
the Pratt-style regex parser (src/regexp2/src/parser.rs), the DFA and its
execution engine (src/automata/src/dfa.rs) and the Match value
(src/automata/src/matching.rs), together with theorems settling the claims
about them.

Components of the repository that are not part of the provided sources
(the transition Table, the CharClass algebra, and the AST node types) are
modelled from the specification; each such definition carries a doc comment
starting with `Modelled from the spec:`.
-/

namespace Regexp2

/-- Modelled from the spec: `CharClass` (src/regexp2/src/class.rs is not
provided).  A set of Unicode scalars represented as a union of inclusive
ranges; range endpoints are kept as codepoints (`Nat`).  The contract used
by the parser: construction from a char, named atoms, `complement`,
`is_single`, `is_empty`, `add_range`, `add_other`, and iterable `ranges`
whose elements expose `.start`/`.end` (here the first and second component
of a pair). -/
structure CharClass where
  ranges : List (Nat × Nat)
deriving DecidableEq, Repr

/-- Modelled from the spec: `CharClass::from(char)` — a singleton range. -/
def CharClass.ofChar (c : Char) : CharClass :=
  ⟨[(c.toNat, c.toNat)]⟩

/-- Modelled from the spec: `CharClass::new()` — the empty class. -/
def CharClass.bare : CharClass := ⟨[]⟩

/-- Modelled from the spec: `is_single` — true iff exactly one single-char
range. -/
def CharClass.isSingle (c : CharClass) : Bool :=
  match c.ranges with
  | [r] => r.1 == r.2
  | _ => false

/-- Modelled from the spec: `is_empty`. -/
def CharClass.isEmpty (c : CharClass) : Bool :=
  c.ranges.isEmpty

/-- Modelled from the spec: `add_range((a,b))` — push one inclusive range. -/
def CharClass.addRange (c : CharClass) (r : Nat × Nat) : CharClass :=
  ⟨c.ranges ++ [r]⟩

/-- Modelled from the spec: `add_other(CharClass)` — add all of the other
class's ranges. -/
def CharClass.addOther (c other : CharClass) : CharClass :=
  ⟨c.ranges ++ other.ranges⟩

/-- The `.ranges.into_iter().last().unwrap().start` access used by
`parse_class` on a class known to be single (default is unreachable there). -/
def CharClass.lastRangeStart (c : CharClass) : Nat :=
  ((c.ranges.getLast?).map Prod.fst).getD 0

/-- The largest Unicode scalar value. -/
def maxScalar : Nat := 1114111

/-- Insertion step for sorting ranges by their start. -/
def insertRange (r : Nat × Nat) : List (Nat × Nat) → List (Nat × Nat)
  | [] => [r]
  | s :: rest => if r.1 ≤ s.1 then r :: s :: rest else s :: insertRange r rest

/-- Sort a list of ranges by their start. -/
def sortRanges (l : List (Nat × Nat)) : List (Nat × Nat) :=
  l.foldr insertRange []

/-- The gaps left in `[lo, maxScalar]` by a list of ranges sorted by start. -/
def gapsFrom (lo : Nat) : List (Nat × Nat) → List (Nat × Nat)
  | [] => if lo ≤ maxScalar then [(lo, maxScalar)] else []
  | (a, b) :: rest =>
    if lo < a then (lo, a - 1) :: gapsFrom (max lo (b + 1)) rest
    else gapsFrom (max lo (b + 1)) rest

/-- Modelled from the spec: `complement()` — the set of scalars in none of
the ranges. -/
def CharClass.complement (c : CharClass) : CharClass :=
  ⟨gapsFrom 0 (sortRanges c.ranges)⟩

/-- Modelled from the spec: the named atom `decimal_number` (`\d`). -/
def CharClass.decimalNumber : CharClass := ⟨[(48, 57)]⟩

/-- Modelled from the spec: the named atom `whitespace` (`\s`). -/
def CharClass.whitespace : CharClass := ⟨[(9, 13), (32, 32)]⟩

/-- Modelled from the spec: the named atom `word` (`\w`). -/
def CharClass.word : CharClass := ⟨[(48, 57), (65, 90), (95, 95), (97, 122)]⟩

/-- Modelled from the spec: the named atom `newline` (`\n`). -/
def CharClass.newline : CharClass := ⟨[(10, 10)]⟩

/-- Modelled from the spec: the named atom `all_but_newline` (the wildcard
class). -/
def CharClass.allButNewline : CharClass := CharClass.newline.complement

/-- Modelled from the spec: the AST unary operators (src/regexp2/src/ast.rs
is not provided): `Star`, `Optional`. -/
inductive UnaryOp where
  | Star
  | Optional
deriving DecidableEq, Repr

/-- Modelled from the spec: the AST binary operators: `Concat`,
`Alternate`. -/
inductive BinaryOp where
  | Concat
  | Alternate
deriving DecidableEq, Repr

/-- Modelled from the spec: the AST expression node
`Atom(CharClass) | Unary(op, child) | Binary(op, left, right)`. -/
inductive Expr where
  | Atom (c : CharClass)
  | Unary (op : UnaryOp) (child : Expr)
  | Binary (op : BinaryOp) (left right : Expr)
deriving DecidableEq, Repr

/-- Rust `Span` from src/regexp2/src/parser.rs: `{ start, end, text }`.  Rust's
field `end` is called `stop` here (`end` is a Lean keyword); `text` is the
sliced source as a char list. -/
structure Span where
  start : Nat
  stop : Nat
  text : List Char
deriving DecidableEq, Repr

/-- Rust `ParseError` from src/regexp2/src/parser.rs. -/
inductive ParseError where
  | emptyExpression (span : Span)
  | unexpectedToken (span : Span) (token : Char) (expected : List Char)
  | unexpectedEof (span : Span) (expected : List Char)
  | unbalancedOperators (span : Span)
  | unbalancedParentheses (span : Span)
  | emptyCharacterClass (span : Span)
deriving DecidableEq, Repr

/-- The `(byte_offset, char)` pairs of a char list starting at byte offset
`off`, mirroring Rust's `str::char_indices`. -/
def charIndicesFrom (off : Nat) : List Char → List (Nat × Char)
  | [] => []
  | c :: cs => (off, c) :: charIndicesFrom (off + c.utf8Size) cs

/-- The chars of `e` whose byte offset is at least `lo` and below `hi`
(UTF-8 byte slicing `&expr[lo..hi]` at char boundaries). -/
def byteSlice (e : List Char) (lo hi : Nat) : List Char :=
  (charIndicesFrom 0 e).filterMap
    (fun oc => if lo ≤ oc.1 ∧ oc.1 < hi then some oc.2 else none)

/-- The chars of `e` whose byte offset is at least `lo`
(UTF-8 byte slicing `&expr[lo..]`). -/
def byteSliceFrom (e : List Char) (lo : Nat) : List Char :=
  (charIndicesFrom 0 e).filterMap
    (fun oc => if lo ≤ oc.1 then some oc.2 else none)

/-- Rust `ParseInput` from src/regexp2/src/parser.rs: the source, the remaining
`(byte_offset, char)` cursor, the count of chars consumed (`next_pos`), and
the byte offset of the most recently consumed char (`char_pos`). -/
structure ParseInput where
  expr : List Char
  input : List (Nat × Char)
  nextPos : Nat
  charPos : Nat
deriving DecidableEq, Repr

/-- Rust `ParseInput::new`. -/
def ParseInput.new (e : List Char) : ParseInput :=
  ⟨e, charIndicesFrom 0 e, 0, 0⟩

/-- Rust `ParseInput::next`: pop the next char, updating `next_pos` and
`char_pos`; state is returned alongside the result (Rust mutates in
place). -/
def ParseInput.next (p : ParseInput) : Option (Nat × Char) × ParseInput :=
  match p.input with
  | [] => (none, p)
  | (off, c) :: rest =>
    (some (off, c), { p with input := rest, nextPos := p.nextPos + 1, charPos := off })

/-- Rust `ParseInput::peek`. -/
def ParseInput.peek (p : ParseInput) : Option (Nat × Char) :=
  p.input.head?

/-- Rust `ParseInput::peek_is`. -/
def ParseInput.peekIs (p : ParseInput) (expected : Char) : Bool :=
  match p.peek with
  | some peeked => peeked.2 == expected
  | none => false

/-- Rust `ParseInput::current_span`. -/
def ParseInput.currentSpan (p : ParseInput) : Span :=
  let pos := if p.nextPos = 0 then 0 else p.nextPos - 1
  let text :=
    match p.input.head? with
    | some oc => byteSlice p.expr p.charPos oc.1
    | none => byteSliceFrom p.expr p.charPos
  ⟨pos, pos, text⟩

/-- Rust `ParseInput::current_eof_span`. -/
def ParseInput.currentEofSpan (p : ParseInput) : Span :=
  ⟨p.nextPos, p.nextPos, []⟩

/-- Rust `ParseInput::next_unwrap`: next char or `UnexpectedEof` with the
supplied expected set. -/
def ParseInput.nextUnwrap (p : ParseInput) (expected : List Char) :
    Except ParseError ((Nat × Char) × ParseInput) :=
  match p.next with
  | (some c, p1) => Except.ok (c, p1)
  | (none, p1) => Except.error (ParseError.unexpectedEof p1.currentEofSpan expected)

/-- Rust `ParseInput::next_unchecked`: consume after a successful peek (Rust
panics on empty input; all call sites guard with `peek`, so the junk value
returned on empty input here is never produced). -/
def ParseInput.nextUnchecked (p : ParseInput) : (Nat × Char) × ParseInput :=
  match p.next with
  | (some c, p1) => (c, p1)
  | (none, p1) => ((0, ' '), p1)

/-- Rust `ParseInput::next_checked`: consume and compare against `check`; the
advanced state is returned even when the result is an error, mirroring the
`&mut self` receiver. -/
def ParseInput.nextChecked (p : ParseInput) (check : Char) (expected : List Char) :
    Except ParseError (Nat × Char) × ParseInput :=
  match p.next with
  | (some nx, p1) =>
    if nx.2 = check then (Except.ok nx, p1)
    else (Except.error (ParseError.unexpectedToken p1.currentSpan nx.2 expected), p1)
  | (none, p1) =>
    (Except.error (ParseError.unexpectedEof p1.currentEofSpan expected), p1)

/-- The `ParserEngine` trait: the pluggable builder's seven callbacks.  The
two engines bundled with the repository are stateless, so the callbacks are
modelled as pure functions.  Call sites that pass a plain char in Rust
(`handle_char<C: Into<CharClass>>`) convert with `CharClass.ofChar`
first. -/
structure Engine (Out : Type) where
  handleChar : CharClass → Out
  handleWildcard : Out
  handleStar : Out → Out
  handlePlus : Out → Out
  handleOptional : Out → Out
  handleConcat : Out → Out → Out
  handleAlternate : Out → Out → Out

/-- Bind for fuelled parse results: `none` is fuel exhaustion (never
reached with the fuel supplied by `parse`), errors propagate as Rust's
`?`. -/
def pbind (x : Option (Except ParseError α)) (f : α → Option (Except ParseError β)) :
    Option (Except ParseError β) :=
  match x with
  | none => none
  | some (Except.error e) => some (Except.error e)
  | some (Except.ok a) => f a

/-- Rust `ParserState::EXPR_START_EXPECTED`. -/
def exprStartExpected : List Char := ['(', '[']

/-- Rust `parse_single_char`: consume the next char (`next_unwrap` with empty
expected set). -/
def parseSingleChar (p : ParseInput) : Except ParseError (Char × ParseInput) :=
  match p.nextUnwrap [] with
  | Except.ok (oc, p1) => Except.ok (oc.2, p1)
  | Except.error e => Except.error e

/-- Rust `parse_single`: one literal char through `handle_char`. -/
def parseSingle (e : Engine Out) (p : ParseInput) : Except ParseError (Out × ParseInput) :=
  match parseSingleChar p with
  | Except.ok (c, p1) => Except.ok (e.handleChar (CharClass.ofChar c), p1)
  | Except.error err => Except.error err

/-- Rust `parse_escaped_char`: the source discards the result of
`next_checked('\\', ...)` (no `?`), then consumes the escaped char. -/
def parseEscapedChar (p : ParseInput) : Except ParseError (Char × ParseInput) :=
  let bs := p.nextChecked '\\' ['\\']
  match bs.2.nextUnwrap [] with
  | Except.ok (oc, p1) => Except.ok (oc.2, p1)
  | Except.error e => Except.error e

/-- Rust `parse_escaped_class`: the escape-class table after `\`. -/
def parseEscapedClass (p : ParseInput) : Except ParseError (CharClass × ParseInput) :=
  match parseEscapedChar p with
  | Except.error e => Except.error e
  | Except.ok (c, p1) =>
    let cls :=
      if c = 'd' then CharClass.decimalNumber
      else if c = 'D' then CharClass.decimalNumber.complement
      else if c = 's' then CharClass.whitespace
      else if c = 'S' then CharClass.whitespace.complement
      else if c = 'w' then CharClass.word
      else if c = 'W' then CharClass.word.complement
      else if c = 'n' then CharClass.newline
      else CharClass.ofChar c
    Except.ok (cls, p1)

/-- Rust `parse_escaped`: escape-class through `handle_char`. -/
def parseEscaped (e : Engine Out) (p : ParseInput) : Except ParseError (Out × ParseInput) :=
  match parseEscapedClass p with
  | Except.ok (cls, p1) => Except.ok (e.handleChar cls, p1)
  | Except.error err => Except.error err

/-- Rust `parse_single_or_escaped_class`. -/
def parseSingleOrEscapedClass (p : ParseInput) : Except ParseError (CharClass × ParseInput) :=
  match p.peek with
  | some (_, '\\') => parseEscapedClass p
  | some _ =>
    match parseSingleChar p with
    | Except.ok (c, p1) => Except.ok (CharClass.ofChar c, p1)
    | Except.error e => Except.error e
  | none => Except.error (ParseError.unexpectedEof p.currentEofSpan ['\\'])

/-- Rust `parse_wildcard_char`. -/
def parseWildcardChar (p : ParseInput) : Except ParseError (Char × ParseInput) :=
  match p.nextChecked '.' ['.'] with
  | (Except.ok nx, p1) => Except.ok (nx.2, p1)
  | (Except.error e, _) => Except.error e

/-- Rust `parse_wildcard`. -/
def parseWildcard (e : Engine Out) (p : ParseInput) : Except ParseError (Out × ParseInput) :=
  match parseWildcardChar p with
  | Except.ok (_, p1) => Except.ok (e.handleWildcard, p1)
  | Except.error err => Except.error err

/-- The item loop of `parse_class` (`while let Some((_, c)) = input.peek()`),
fuelled; each iteration consumes at least one char, so the fuel supplied by
`parse` is never exhausted. -/
def classItems : Nat → ParseInput → CharClass → Option (Except ParseError (CharClass × ParseInput))
  | 0, _, _ => none
  | fuel + 1, p, cls =>
    match p.peek with
    | none => some (Except.ok (cls, p))
    | some (_, c) =>
      if c = ']' then some (Except.ok (cls, p))
      else
        match parseSingleOrEscapedClass p with
        | Except.error e => some (Except.error e)
        | Except.ok (start, p1) =>
          if !start.isSingle then classItems fuel p1 (cls.addOther start)
          else
            match p1.peek with
            | some (_, '-') =>
              let d := p1.nextUnchecked
              match parseSingleOrEscapedClass d.2 with
              | Except.error e => some (Except.error e)
              | Except.ok (stop, p3) =>
                if !stop.isSingle then
                  classItems fuel p3
                    (((cls.addOther start).addRange ('-'.toNat, '-'.toNat)).addOther stop)
                else
                  classItems fuel p3
                    (cls.addRange (start.lastRangeStart, stop.lastRangeStart))
            | some _ =>
              classItems fuel p1 (cls.addRange (start.lastRangeStart, start.lastRangeStart))
            | none =>
              some (Except.error (ParseError.unexpectedEof p1.currentEofSpan [']', '-']))

/-- Rust `parse_class`: `[`, optional `^`, the item loop, then a closing-`]`
check whose Result the source discards (`let _rb = ...;` without `?`);
an empty class yields no output. -/
def parseClass (fuel : Nat) (e : Engine Out) (p : ParseInput) :
    Option (Except ParseError (Option Out × ParseInput)) :=
  match p.nextChecked '[' ['['] with
  | (Except.error err, _) => some (Except.error err)
  | (Except.ok _, p1) =>
    let negStep : Option (Except ParseError (Bool × ParseInput)) :=
      match p1.peek with
      | some (_, '^') => some (Except.ok (true, (p1.nextUnchecked).2))
      | some _ => some (Except.ok (false, p1))
      | none => some (Except.error (ParseError.unexpectedEof p1.currentEofSpan [']', '^']))
    pbind negStep fun np =>
      pbind (classItems fuel np.2 CharClass.bare) fun cp =>
        let rb := cp.2.nextChecked ']' [']']
        let v :=
          if !cp.1.isEmpty then
            let cls := if np.1 then cp.1.complement else cp.1
            some (e.handleChar cls)
          else none
        some (Except.ok (v, rb.2))

mutual

/-- Rust `parse_expr(input, min_bp, parenthesized)`: LHS phase then RHS loop. -/
def parseExpr (e : Engine Out) : Nat → ParseInput → Nat → Bool →
    Option (Except ParseError (Out × ParseInput))
  | 0, _, _, _ => none
  | fuel + 1, p, minBp, paren =>
    pbind (lhsLoop e fuel p paren) fun lp =>
      rhsLoop e fuel lp.1 lp.2 minBp paren

/-- The LHS phase of `parse_expr` (`while lhs.is_none()`), one iteration
per call; the dispatch mirrors the source's match arms in order, including
the fallthrough of the guarded `')' if !parenthesized` arm to the
catch-all when `parenthesized` holds. -/
def lhsLoop (e : Engine Out) : Nat → ParseInput → Bool →
    Option (Except ParseError (Out × ParseInput))
  | 0, _, _ => none
  | fuel + 1, p, paren =>
    match p.peek with
    | none => some (Except.error (ParseError.emptyExpression p.currentSpan))
    | some (_, c) =>
      if c = '\\' then some ((parseEscaped e p).map id)
      else if c = '(' then
        pbind (parseGroup e fuel p) fun gp =>
          match gp.1 with
          | some out => some (Except.ok (out, gp.2))
          | none => lhsLoop e fuel gp.2 paren
      else if c = ')' ∧ ¬paren then
        let nx := p.nextUnchecked
        some (Except.error
          (ParseError.unexpectedToken nx.2.currentSpan nx.1.2 exprStartExpected))
      else if c = '[' then
        pbind (parseClass fuel e p) fun cp =>
          match cp.1 with
          | some out => some (Except.ok (out, cp.2))
          | none => lhsLoop e fuel cp.2 paren
      else if c = '.' then some ((parseWildcard e p).map id)
      else if c = '?' ∨ c = '*' ∨ c = '|' then
        let nx := p.nextUnchecked
        some (Except.error
          (ParseError.unexpectedToken nx.2.currentSpan nx.1.2 exprStartExpected))
      else some ((parseSingle e p).map id)

/-- The RHS loop of `parse_expr` (`while let Some((_, c)) = input.peek()`).
Binding powers are inlined from `postfix_bp`/`infix_bp`: star, plus and
optional have left power 9; concatenation `(7, 8)`; alternation `(5, 6)`. -/
def rhsLoop (e : Engine Out) : Nat → Out → ParseInput → Nat → Bool →
    Option (Except ParseError (Out × ParseInput))
  | 0, _, _, _, _ => none
  | fuel + 1, lhs, p, minBp, paren =>
    match p.peek with
    | none => some (Except.ok (lhs, p))
    | some (_, c) =>
      if c = ')' ∧ paren then some (Except.ok (lhs, p))
      else if c = '*' then
        if 9 < minBp then some (Except.ok (lhs, p))
        else rhsLoop e fuel (e.handleStar lhs) (p.nextUnchecked).2 minBp paren
      else if c = '+' then
        if 9 < minBp then some (Except.ok (lhs, p))
        else rhsLoop e fuel (e.handlePlus lhs) (p.nextUnchecked).2 minBp paren
      else if c = '?' then
        if 9 < minBp then some (Except.ok (lhs, p))
        else rhsLoop e fuel (e.handleOptional lhs) (p.nextUnchecked).2 minBp paren
      else if c = '|' then
        if 5 < minBp then some (Except.ok (lhs, p))
        else
          pbind (parseExpr e fuel (p.nextUnchecked).2 6 paren) fun rp =>
            rhsLoop e fuel (e.handleAlternate lhs rp.1) rp.2 minBp paren
      else
        if 7 < minBp then some (Except.ok (lhs, p))
        else
          pbind (parseExpr e fuel p 8 paren) fun rp =>
            rhsLoop e fuel (e.handleConcat lhs rp.1) rp.2 minBp paren

/-- Rust `parse_group`: `(`, an optional inner expression (skipped when the
next char is `)`), then a checked `)`. -/
def parseGroup (e : Engine Out) : Nat → ParseInput →
    Option (Except ParseError (Option Out × ParseInput))
  | 0, _ => none
  | fuel + 1, p =>
    match p.nextChecked '(' ['('] with
    | (Except.error err, _) => some (Except.error err)
    | (Except.ok _, p1) =>
      if !(p1.peekIs ')') then
        pbind (parseExpr e fuel p1 0 true) fun xp =>
          match xp.2.nextChecked ')' [')'] with
          | (Except.error err, _) => some (Except.error err)
          | (Except.ok _, p3) => some (Except.ok (some xp.1, p3))
      else
        match p1.nextChecked ')' [')'] with
        | (Except.error err, _) => some (Except.error err)
        | (Except.ok _, p3) => some (Except.ok (none, p3))

end

/-- Fuel comfortably larger than every loop iteration and recursion the
parse of `s` can make (each consumes at least one char or is the last). -/
def parseFuel (s : List Char) : Nat := 4 * s.length + 8

/-- Rust `Parser::parse` / `ParserState::parse`: run `parse_expr(input, 0, false)`
on a fresh cursor; `none` would mean fuel exhaustion and is never returned
for the fuel above. -/
def parse (e : Engine Out) (s : String) : Option (Except ParseError Out) :=
  match parseExpr e (parseFuel s.toList) (ParseInput.new s.toList) 0 false with
  | none => none
  | some (Except.error err) => some (Except.error err)
  | some (Except.ok (out, _)) => some (Except.ok out)

/-- The `ASTParserEngine`: `handle_char` builds `Atom`, `handle_star` and
`handle_optional` build `Unary`, `handle_concat` and `handle_alternate`
build `Binary`, `handle_plus(rhs) = concat(star(rhs), rhs)`, and
`handle_wildcard = handle_char(all_but_newline)`. -/
def astEngine : Engine Expr where
  handleChar := Expr.Atom
  handleWildcard := Expr.Atom CharClass.allButNewline
  handleStar := fun lhs => Expr.Unary UnaryOp.Star lhs
  handlePlus := fun rhs => Expr.Binary BinaryOp.Concat (Expr.Unary UnaryOp.Star rhs) rhs
  handleOptional := fun lhs => Expr.Unary UnaryOp.Optional lhs
  handleConcat := fun l r => Expr.Binary BinaryOp.Concat l r
  handleAlternate := fun l r => Expr.Binary BinaryOp.Alternate l r

/-- Rust `Parser::<ASTParserEngine>::parse`. -/
def parseAST (s : String) : Option (Except ParseError Expr) :=
  parse astEngine s

/-- Whether an AST parse result is the `UnexpectedToken` error. -/
def resultIsUnexpectedToken : Option (Except ParseError Expr) → Bool
  | some (Except.error (ParseError.unexpectedToken _ _ _)) => true
  | _ => false

/-- Whether an AST parse result is the `UnexpectedEof` error. -/
def resultIsUnexpectedEof : Option (Except ParseError Expr) → Bool
  | some (Except.error (ParseError.unexpectedEof _ _)) => true
  | _ => false

/-- Modelled from the spec: the transition `Table` (src/automata/src/table.rs
is not provided) — a two-level associative container `state → label → state`
with `set` (insert/overwrite) and `get_row`, here an association list of
`(row, column, value)` entries.  The DFA stores the `Transition<T>` newtype
column unwrapped (it is a transparent wrapper). -/
abbrev Table (T : Type) : Type := List (Nat × T × Nat)

/-- Modelled from the spec: `Table::new()`. -/
def Table.empty : Table T := []

/-- Modelled from the spec: `Table::set(row, col, value)` —
insert/overwrite the entry of `(row, col)`. -/
def Table.set [DecidableEq T] (tbl : Table T) (row : Nat) (col : T) (v : Nat) : Table T :=
  (row, col, v) :: tbl.filter (fun a => decide ¬(a.1 = row ∧ a.2.1 = col))

/-- Modelled from the spec: `Table::get_row(row)` — the row's
column-to-value view. -/
def Table.getRow (tbl : Table T) (row : Nat) : List (T × Nat) :=
  tbl.filterMap (fun a => if a.1 = row then some a.2 else none)

/-- Lookup of a single entry (the observable the row view provides for a
column). -/
def Table.get [DecidableEq T] (tbl : Table T) (row : Nat) (col : T) : Option Nat :=
  (tbl.find? (fun a => decide (a.1 = row ∧ a.2.1 = col))).map (fun a => a.2.2)

/-- The `DFA<T>` of src/automata/src/dfa.rs: initial state, number of
states, final-state set (a `HashSet`, modelled as a list with
membership-based use), and the transition table. -/
structure DFA (T : Type) where
  initialState : Nat
  totalStates : Nat
  finalStates : List Nat
  transition : Table T

/-- Rust `DFA::new()`: a single initial state `0`, no final states, empty
table. -/
def DFA.new : DFA T :=
  ⟨0, 1, [], Table.empty⟩

/-- Rust `DFA::add_state(is_final)`: allocate the label `total_states`,
increment, insert into the final set iff `is_final`; returns the new DFA
and the label. -/
def addState (d : DFA T) (isFinal : Bool) : DFA T × Nat :=
  let label := d.totalStates
  ({ d with
      totalStates := d.totalStates + 1,
      finalStates := if isFinal then label :: d.finalStates else d.finalStates },
   label)

/-- Rust `DFA::add_transition(start, end, Transition(label))`: `None` when an
endpoint is out of range, otherwise set the table entry and return
`Some(())`; the (possibly unchanged) DFA is returned alongside, mirroring
the `&mut self` receiver. -/
def addTransition [DecidableEq T] (d : DFA T) (start stop : Nat) (label : T) :
    Option Unit × DFA T :=
  if d.totalStates < start + 1 ∨ d.totalStates < stop + 1 then (none, d)
  else (some (), { d with transition := d.transition.set start label stop })

/-- Rust `DFA::transitions_on(state)`. -/
def transitionsOn (d : DFA T) (state : Nat) : List (T × Nat) :=
  d.transition.getRow state

/-- Rust `DFA::is_final_state(state)`: `final_states.iter().any(|s| s == state)`. -/
def isFinalState (d : DFA T) (state : Nat) : Bool :=
  d.finalStates.any (fun s => s == state)

/-- The transition-lookup part of `iter_on_next`: the first transition of
the current row whose label matches the input symbol under the
`PartialEq<I::Item>` predicate `mp` (a `HashMap` iterates in unspecified
order; the DFA builder guarantees at most one label matches, so the list
order here is immaterial). -/
def findTransition (d : DFA T) (mp : T → S → Bool) (current : Nat) (x : S) : Option Nat :=
  ((transitionsOn d current).find? (fun tv => mp tv.1 x)).map (fun tv => tv.2)

/-- The stepping iterator `iter_on` as the finite list of its yields:
`iter_on_next` pops an input symbol, looks up a matching transition from
the current state, and yields `(new_state, consumed_symbol, is_final)`
until the input is exhausted or no transition applies. -/
def dfaSteps (d : DFA T) (mp : T → S → Bool) : Nat → List S → List (Nat × S × Bool)
  | _, [] => []
  | current, x :: xs =>
    match findTransition d mp current x with
    | none => []
    | some s2 => (s2, x, isFinalState d s2) :: dfaSteps d mp s2 xs

/-- Rust `DFA::is_match(input)`: the `is_final` flag of the last yield of the
stepping iterator, `false` when it yields nothing. -/
def isMatch (d : DFA T) (mp : T → S → Bool) (input : List S) : Bool :=
  match (dfaSteps d mp d.initialState input).getLast? with
  | some y => y.2.2
  | none => false

/-- The `Match<T>` of src/automata/src/matching.rs: start position, one
past the last matched position (Rust's field `end` is called `stop` here —
`end` is a Lean keyword), and the consumed span. -/
structure RMatch (S : Type) where
  start : Nat
  stop : Nat
  span : List S
deriving DecidableEq, Repr

/-- The `for (i, (s, is, is_final)) in iter` loop of `find_at_impl`,
walking the enumerated post-skip steps with the span buffer, the current
state and the last recorded match; on a final state the match
`Match::new(start, i + 1, span.clone())` is recorded and, in shortest
mode, the loop breaks. -/
def findLoop (start : Nat) (shortest : Bool) :
    List (Nat × Nat × S × Bool) → List S → Nat → Option (RMatch S) →
    Option (RMatch S) × Nat
  | [], _, state, lastMatch => (lastMatch, state)
  | (i, s, x, isFinal) :: rest, span, _, lastMatch =>
    let span1 := span ++ [x]
    if isFinal then
      let lm := some (RMatch.mk start (i + 1) span1)
      if shortest then (lm, s) else findLoop start shortest rest span1 s lm
    else findLoop start shortest rest span1 s lastMatch

/-- Rust `DFA::find_at_impl(input, start, shortest)`: seed an empty match at
`start` when the initial state is final; unless `shortest` already has
that match, run the loop over `iter_on(input).skip(start).enumerate()`
(note: `skip` is applied to the *stepping iterator*); finally pair the
last match, its span Rc-unwrapped (value-identity here), with the last
traversed state. -/
def findAtImpl (d : DFA T) (mp : T → S → Bool) (input : List S)
    (start : Nat) (shortest : Bool) : Option (RMatch S × Nat) :=
  let lm0 : Option (RMatch S) :=
    if isFinalState d d.initialState then some (RMatch.mk start start []) else none
  let state0 := d.initialState
  let r :=
    if !(shortest && lm0.isSome) then
      findLoop start shortest
        (((dfaSteps d mp state0 input).drop start).enum) [] state0 lm0
    else (lm0, state0)
  r.1.map (fun m => (m, r.2))

/-- Rust `DFA::find_at(input, start)`. -/
def findAt (d : DFA T) (mp : T → S → Bool) (input : List S) (start : Nat) :
    Option (RMatch S × Nat) :=
  findAtImpl d mp input start false

/-- Rust `DFA::find(input)`. -/
def find (d : DFA T) (mp : T → S → Bool) (input : List S) : Option (RMatch S × Nat) :=
  findAt d mp input 0

/-- Rust `DFA::find_shortest_at(input, start)`. -/
def findShortestAt (d : DFA T) (mp : T → S → Bool) (input : List S) (start : Nat) :
    Option (RMatch S × Nat) :=
  findAtImpl d mp input start true

/-- Rust `DFA::find_shortest(input)`. -/
def findShortest (d : DFA T) (mp : T → S → Bool) (input : List S) :
    Option (RMatch S × Nat) :=
  findShortestAt d mp input 0

/-- Transition labels that are plain chars matched by equality
(`Transition<char>` with `char: PartialEq<char>`). -/
def chEq (a b : Char) : Bool := a == b

/-- A DFA over chars built with the public API: one added final state `1`
and the single transition `0 -b-> 1`. -/
def dfaB : DFA Char :=
  let p := addState DFA.new true
  (addTransition p.1 0 p.2 'b').2

/-- A DFA over chars built with the public API: final state `1`,
transitions `0 -a-> 1` and `1 -a-> 1` (the language `a+`). -/
def dfaA : DFA Char :=
  let p := addState DFA.new true
  let d1 := (addTransition p.1 0 p.2 'a').2
  (addTransition d1 p.2 p.2 'a').2

/-- A DFA over chars built with the public API: final state `1` and the
single transition `0 -a-> 1`. -/
def dfaA1 : DFA Char :=
  let p := addState DFA.new true
  (addTransition p.1 0 p.2 'a').2

/-- Rust `DFA::new()` with the initial state made final (the `final_states`
field is public in the source, so this is constructible; it is the DFA of
the empty-string regex). -/
def dfaEps : DFA Char :=
  { (DFA.new : DFA Char) with finalStates := [0] }

/-- List lemma: `find?` commutes with a `filter` whose predicate is implied by the
searched-for predicate. -/
theorem find?_filter_of_imp (p q : α → Bool) (h : ∀ a, p a = true → q a = true) :
    ∀ l : List α, (l.filter q).find? p = l.find? p := by
  intro l
  induction l with
  | nil => rfl
  | cons a as ih =>
    cases hq : q a with
    | true =>
      cases hp : p a with
      | true => simp [List.filter_cons, hq, List.find?_cons, hp]
      | false => simp [List.filter_cons, hq, List.find?_cons, hp, ih]
    | false =>
      have hp : p a = false := by
        cases hpa : p a
        · rfl
        · exact absurd (h a hpa) (by simp [hq])
      simp [List.filter_cons, hq, List.find?_cons, hp, ih]

/-- Table lemma: `Table.set` makes the written entry visible at its own key. -/
theorem tableGet_set_same [DecidableEq T] (tbl : Table T) (row : Nat) (col : T) (v : Nat) :
    (tbl.set row col v).get row col = some v := by
  simp [Table.set, Table.get, List.find?_cons]

/-- Table lemma: `Table.set` leaves every other key's lookup unchanged. -/
theorem tableGet_set_ne [DecidableEq T] (tbl : Table T) (row : Nat) (col : T) (v : Nat)
    (row2 : Nat) (col2 : T) (h : ¬(row2 = row ∧ col2 = col)) :
    (tbl.set row col v).get row2 col2 = tbl.get row2 col2 := by
  have hfilter := find?_filter_of_imp
    (fun a => decide (a.1 = row2 ∧ a.2.1 = col2))
    (fun a => decide ¬(a.1 = row ∧ a.2.1 = col))
    (by
      intro a ha
      simp only [decide_eq_true_eq] at ha ⊢
      rintro ⟨g1, g2⟩
      exact h ⟨ha.1.symm.trans g1, ha.2.symm.trans g2⟩)
    tbl
  unfold Table.set Table.get
  rw [List.find?_cons_of_neg, hfilter]
  simp only [decide_eq_true_eq]
  rintro ⟨h1, h2⟩
  exact h ⟨h1.symm, h2.symm⟩

/-- The operations of the DFA-construction API, for quantifying over
arbitrary build sequences. -/
inductive DfaOp (T : Type) where
  | addSt (isFinal : Bool)
  | addTr (f t : Nat) (l : T)

/-- Apply one construction operation (a failing `add_transition` leaves
the DFA unchanged). -/
def applyOp [DecidableEq T] (d : DFA T) : DfaOp T → DFA T
  | DfaOp.addSt b => (addState d b).1
  | DfaOp.addTr f t l => (addTransition d f t l).2

/-- Apply a sequence of construction operations. -/
def applyOps [DecidableEq T] (d : DFA T) (ops : List (DfaOp T)) : DFA T :=
  ops.foldl applyOp d

/-- Every state label appearing as a source or target in the transition
table is below `total_states`. -/
def tableWF (d : DFA T) : Prop :=
  ∀ a ∈ d.transition, a.1 < d.totalStates ∧ a.2.2 < d.totalStates

/-- Every final state is below `total_states`. -/
def finalWF (d : DFA T) : Prop :=
  ∀ s ∈ d.finalStates, s < d.totalStates

/-- One construction operation preserves both well-formedness
invariants. -/
theorem wf_applyOp [DecidableEq T] (d : DFA T) (op : DfaOp T)
    (h1 : tableWF d) (h2 : finalWF d) :
    tableWF (applyOp d op) ∧ finalWF (applyOp d op) := by
  unfold tableWF at h1 ⊢
  unfold finalWF at h2 ⊢
  cases op with
  | addSt b =>
    refine ⟨fun a ha => ?_, fun s hs => ?_⟩
    · simp only [applyOp, addState] at ha ⊢
      have := h1 a ha
      omega
    · simp only [applyOp, addState] at hs ⊢
      cases b with
      | true =>
        simp only [if_pos, List.mem_cons] at hs
        rcases hs with rfl | hmem
        · omega
        · have := h2 s hmem; omega
      | false =>
        simp only [Bool.false_eq_true, if_false] at hs
        have := h2 s hs; omega
  | addTr f t l =>
    by_cases hc : d.totalStates < f + 1 ∨ d.totalStates < t + 1
    · simp only [applyOp, addTransition, if_pos hc]
      exact ⟨h1, h2⟩
    · refine ⟨fun a ha => ?_, fun s hs => ?_⟩
      · simp only [applyOp, addTransition, if_neg hc] at ha ⊢
        simp only [Table.set, List.mem_cons] at ha
        rcases ha with rfl | ha
        · simp only []
          omega
        · exact h1 a (List.mem_of_mem_filter ha)
      · simp only [applyOp, addTransition, if_neg hc] at hs ⊢
        exact h2 s hs

/-- A sequence of construction operations preserves both well-formedness
invariants. -/
theorem wf_applyOps [DecidableEq T] (ops : List (DfaOp T)) (d : DFA T)
    (h1 : tableWF d) (h2 : finalWF d) :
    tableWF (applyOps d ops) ∧ finalWF (applyOps d ops) := by
  induction ops generalizing d with
  | nil => exact ⟨h1, h2⟩
  | cons op rest ih =>
    have h := wf_applyOp d op h1 h2
    simpa [applyOps, List.foldl_cons] using ih (applyOp d op) h.1 h.2

/-- Rust `DFA::new()` satisfies both well-formedness invariants. -/
theorem wf_new : tableWF (DFA.new : DFA T) ∧ finalWF (DFA.new : DFA T) := by
  unfold tableWF finalWF
  refine ⟨fun a ha => ?_, fun s hs => ?_⟩
  · simp [DFA.new, Table.empty] at ha
  · simp [DFA.new] at hs

/-- C1: the claim states that `find_at_impl` first discards the `start`
input symbols without stepping the automaton (so a missing transition in
the skipped prefix cannot end the search) and records each match as
`Match(start, start + i + 1, clone(span))`.  The code instead applies
`.skip(start)` to the stepping iterator, so the automaton is stepped
through the skipped prefix: on `dfaB` (`0 -b-> 1`, final state `1`) with
input "ab" and start 1, the automaton dies on the skipped 'a' and
`find_at` returns `None` where the claim requires `Match(1, 2, ['b'])`;
and on `dfaA` (the language `a+`) with input "aa" and start 1, the
recorded match has `end = i + 1 = 1`, not `start + i + 1 = 2`. -/
theorem c1_find_at_steps_through_skipped_prefix :
    findAt dfaB chEq ['a', 'b'] 1 = none
    ∧ findAt dfaA chEq ['a', 'a'] 1 = some (RMatch.mk 1 1 ['a'], 1) := by
  exact ⟨rfl, rfl⟩

/-- C2: the claim states that every `Match m` returned by the `find*`
family satisfies `m.end − m.start = len(m.span)` and `m.start ≤ m.end`.
On `dfaA` (the language `a+`) with input "aaa" and start 2, `find_at`
returns the match `Match(start = 2, end = 1, span = ['a'])`, which
violates both bounds (`m.end − m.start` would underflow in Rust). -/
theorem c2_match_bounds_violated :
    findAt dfaA chEq ['a', 'a', 'a'] 2 = some (RMatch.mk 2 1 ['a'], 1)
    ∧ ¬((RMatch.mk 2 1 (['a'] : List Char)).start ≤ (RMatch.mk 2 1 (['a'] : List Char)).stop)
    ∧ (RMatch.mk 2 1 (['a'] : List Char)).stop - (RMatch.mk 2 1 (['a'] : List Char)).start
        ≠ (RMatch.mk 2 1 (['a'] : List Char)).span.length := by
  exact ⟨rfl, by decide, by decide⟩

/-- C3: the claim states that `is_match` returns true iff the stepping
iterator yields at least one step whose last `is_final` flag is true, and
that on empty input it returns true iff the initial state is final.  The
first part is the code; the second is violated: on `dfaEps` (initial
state `0` is final) the stepping iterator yields nothing for empty input,
so `is_match` returns false even though the initial state is final. -/
theorem c3_is_match_empty_input_false :
    isMatch dfaEps chEq ([] : List Char) = false
    ∧ isFinalState dfaEps dfaEps.initialState = true := by
  exact ⟨rfl, rfl⟩

/-- C4, counterexample: the claim states that `parse("+")` fails with
`UnexpectedToken`, but the LHS dispatch of `parse_expr` matches only
`'?' | '*' | '|'` (and guarded `')'`), so `'+'` falls to the catch-all
arm and parses as a literal atom. -/
theorem c4_counterexample_plus_is_literal :
    resultIsUnexpectedToken (parseAST "+") = false := by
  exact rfl

/-- C4, amended: for each of the one-character inputs ")", "*", "?", "|",
`Parser::parse` returns `UnexpectedToken`; the input "+" instead parses
successfully as the literal atom `'+'`. -/
theorem c4_amended_lhs_metachar_errors :
    parseAST ")" = some (Except.error
      (ParseError.unexpectedToken (Span.mk 0 0 [')']) ')' ['(', '[']))
    ∧ parseAST "*" = some (Except.error
      (ParseError.unexpectedToken (Span.mk 0 0 ['*']) '*' ['(', '[']))
    ∧ parseAST "?" = some (Except.error
      (ParseError.unexpectedToken (Span.mk 0 0 ['?']) '?' ['(', '[']))
    ∧ parseAST "|" = some (Except.error
      (ParseError.unexpectedToken (Span.mk 0 0 ['|']) '|' ['(', '[']))
    ∧ parseAST "+" = some (Except.ok (Expr.Atom (CharClass.ofChar '+'))) := by
  exact ⟨rfl, rfl, rfl, rfl, rfl⟩

/-- C5, counterexample: the claim states that `parse("(")` and
`parse("[a-b")` fail with `UnexpectedEof`.  In the code, `parse("(")`
fails with `EmptyExpression` (the inner `parse_expr` hits end-of-input in
LHS position), and `parse("[a-b")` parses successfully because
`parse_class` discards the Result of its closing-`]` check
(`let _rb = input.next_checked(']', ...);` has no `?`). -/
theorem c5_counterexample_eof_claims :
    resultIsUnexpectedEof (parseAST "(") = false
    ∧ resultIsUnexpectedEof (parseAST "[a-b") = false := by
  exact ⟨rfl, rfl⟩

/-- C5, amended: `parse("[")` and `parse("\\")` return `UnexpectedEof`;
`parse("(")` returns `EmptyExpression`; and `parse("[a-b")` parses
successfully to the character-class atom `[a-b]` (the missing `]` is
tolerated). -/
theorem c5_amended_eof_behavior :
    parseAST "[" = some (Except.error
      (ParseError.unexpectedEof (Span.mk 1 1 []) [']', '^']))
    ∧ parseAST "\\" = some (Except.error
      (ParseError.unexpectedEof (Span.mk 1 1 []) []))
    ∧ parseAST "(" = some (Except.error
      (ParseError.emptyExpression (Span.mk 0 0 ['('])))
    ∧ parseAST "[a-b" = some (Except.ok (Expr.Atom (CharClass.mk [(97, 98)]))) := by
  exact ⟨rfl, rfl, rfl, rfl⟩

/-- C6: `add_transition(from, to, Transition(t))` fails (returns `None`)
iff `from ≥ total_states` or `to ≥ total_states`; on failure the DFA is
left unchanged; on success it returns `Some(())` and the only change is
that the table entry for `(from, Transition(t))` is set to `to`. -/
theorem c6_add_transition_contract [DecidableEq T] (d : DFA T) (f t : Nat) (l : T) :
    ((addTransition d f t l).1 = none ↔ (f ≥ d.totalStates ∨ t ≥ d.totalStates))
    ∧ ((addTransition d f t l).1 = none → (addTransition d f t l).2 = d)
    ∧ ((addTransition d f t l).1 = some () →
        ((addTransition d f t l).2.initialState = d.initialState
        ∧ (addTransition d f t l).2.totalStates = d.totalStates
        ∧ (addTransition d f t l).2.finalStates = d.finalStates
        ∧ (addTransition d f t l).2.transition.get f l = some t
        ∧ ∀ f2 l2, ¬(f2 = f ∧ l2 = l) →
            (addTransition d f t l).2.transition.get f2 l2 = d.transition.get f2 l2)) := by
  unfold addTransition
  by_cases hc : d.totalStates < f + 1 ∨ d.totalStates < t + 1
  · rw [if_pos hc]
    refine ⟨⟨fun _ => by omega, fun _ => rfl⟩, fun _ => rfl, fun hsome => ?_⟩
    exact absurd hsome (by simp)
  · rw [if_neg hc]
    refine ⟨⟨fun h => ?_, fun h => ?_⟩, fun hnone => ?_, fun _ => ?_⟩
    · exact absurd h (by simp)
    · exact absurd hc (by omega)
    · exact absurd hnone (by simp)
    · refine ⟨rfl, rfl, rfl, ?_, ?_⟩
      · exact tableGet_set_same d.transition f l t
      · intro f2 l2 hne
        exact tableGet_set_ne d.transition f l t f2 l2 hne

/-- Witness for C6 at a concrete in-range call: adding `0 -a-> 1` to a
two-state DFA succeeds and makes the entry visible. -/
theorem c6_add_transition_contract_witness :
    (addTransition (addState (DFA.new : DFA Char) true).1 0 1 'a').1 = some ()
    ∧ (addTransition (addState (DFA.new : DFA Char) true).1 0 1 'a').2.transition.get 0 'a'
        = some 1 :=
  ⟨by decide,
   ((c6_add_transition_contract (addState (DFA.new : DFA Char) true).1 0 1 'a').2.2
      (by decide)).2.2.2.1⟩

/-- A concrete construction sequence used by the C7 witness. -/
def opsW : List (DfaOp Char) := [DfaOp.addSt true, DfaOp.addTr 0 1 'a']

/-- C7: starting from `DFA::new()`, after any sequence of `add_state` and
`add_transition` operations every state label appearing as a source or
target in the transition table is below `total_states`; `add_state`
returns the pre-increment `total_states` as the fresh label and inserts
it into the final-state set iff `is_final`. -/
theorem c7_construction_invariant [DecidableEq T] (ops : List (DfaOp T)) (b : Bool) :
    tableWF (applyOps (DFA.new : DFA T) ops)
    ∧ (addState (applyOps (DFA.new : DFA T) ops) b).2
        = (applyOps (DFA.new : DFA T) ops).totalStates
    ∧ ((applyOps (DFA.new : DFA T) ops).totalStates
        ∈ (addState (applyOps (DFA.new : DFA T) ops) b).1.finalStates ↔ b = true) := by
  have hwf := wf_applyOps ops (DFA.new : DFA T) wf_new.1 wf_new.2
  refine ⟨hwf.1, rfl, ?_⟩
  cases b with
  | true => simp [addState]
  | false =>
    simp only [addState, Bool.false_eq_true, if_false, iff_false]
    intro hmem
    exact absurd (hwf.2 _ hmem) (lt_irrefl _)

/-- Witness for C7 at a concrete construction sequence: after
`add_state(true)` then `add_transition(0, 1, 'a')`, the single table entry
`(0, 'a', 1)` has both endpoints below `total_states`. -/
theorem c7_construction_invariant_witness :
    ((0, 'a', 1) : Nat × Char × Nat).1 < (applyOps (DFA.new : DFA Char) opsW).totalStates
    ∧ ((0, 'a', 1) : Nat × Char × Nat).2.2 < (applyOps (DFA.new : DFA Char) opsW).totalStates :=
  (c7_construction_invariant opsW true).1 (0, 'a', 1) (by decide)

/-- C8: parsing "a*b" with the AST builder produces
`Binary(Concat, Unary(Star, Atom('a')), Atom('b'))` — the postfix star
binds tighter than implicit concatenation and applies only to 'a'. -/
theorem c8_star_binds_tighter_than_concat :
    parseAST "a*b" = some (Except.ok (Expr.Binary BinaryOp.Concat
      (Expr.Unary UnaryOp.Star (Expr.Atom (CharClass.ofChar 'a')))
      (Expr.Atom (CharClass.ofChar 'b')))) := by
  exact rfl

/-- C10: there exist a DFA and a non-empty input on which `is_match`
returns true although the stepping iterator halts before consuming all
input: on `dfaA1` (`0 -a-> 1`, final `1`) with input "ab" the automaton
enters the final state on 'a', dies on 'b', and the last yielded flag is
true. -/
theorem c10_match_without_full_consumption :
    ∃ (d : DFA Char) (inp : List Char), inp ≠ []
      ∧ isMatch d chEq inp = true
      ∧ (dfaSteps d chEq d.initialState inp).length < inp.length :=
  ⟨dfaA1, ['a', 'b'], by decide⟩

end Regexp2
